import Mathlib

/-!
Verification development for the poetry-annotation graph store, reconciler,
layout engine and connector geometry.

The definitions below are a shallow embedding of the TypeScript sources:

* `src/types.ts` — the data model (`Highlight`, `Note`, `Connection`, `Project`).
* `src/contexts/ProjectContext.tsx` — `createEmptyProject`, the reducer
  `projectReducer` (all action cases), `exportProject` / `importProject`.
* `src/utils/layoutAlgorithm.ts` — `calculateNotePositions` and `hasCollision`.
* `src/components/Notes/Note.tsx` — `getIntersection`.

Modelling conventions:

* JavaScript strings are `String`; `String.prototype.includes` is `strIncludes`
  (substring test on the character lists).
* The `createdAt` / `lastModified` timestamp fields are omitted from the model:
  they are opaque wall-clock strings (`new Date().toISOString()`), refreshed on
  every transition, and no property below depends on them.  The constant
  `type: 'note-to-note'` field of `Connection` is likewise omitted.
* Numbers in the store and the layout engine are modelled as `Int`: every
  arithmetic operation those modules perform (+, -, *, %, comparisons, and
  `Math.floor` of a quotient, which is `Int.fdiv`) is exact on integers, and
  all constants in the source are integers.  Connector geometry performs real
  division, so it is modelled over `ℚ`.  In `getIntersection`, when `dx = 0`
  in the vertical branch, JavaScript produces `slope = ±Infinity` and then
  `(y - startY) / slope = 0`, so `x = startX`; the `ℚ` convention `a / 0 = 0`
  yields `slope = 0` and `(y - startY) / 0 = 0`, so `x = startX` as well —
  the two semantics agree at every point used below.
* The JavaScript `Map` returned by `calculateNotePositions` is modelled as an
  association list built in insertion order; `lookupPos` returns the most
  recently set binding for a key, matching `Map.set` / `Map.get`.
-/

/-- JavaScript `String.prototype.includes`, specialised to character lists:
`listPrefixB pat s` tests whether `pat` is an initial segment of `s`. -/
def listPrefixB : List Char → List Char → Bool
  | [], _ => true
  | _ :: _, [] => false
  | a :: as, b :: bs => a == b && listPrefixB as bs

/-- `listInfixB pat s` tests whether `pat` occurs contiguously inside `s`. -/
def listInfixB : List Char → List Char → Bool
  | pat, [] => pat == []
  | pat, s@(_ :: rest) => listPrefixB pat s || listInfixB pat rest

/-- JavaScript `s.includes(pat)`. -/
def strIncludes (s pat : String) : Bool :=
  listInfixB pat.toList s.toList

/-- `src/types.ts` `Highlight`. -/
structure Highlight where
  id : String
  lineIndex : Int
  startOffset : Int
  endOffset : Int
  text : String
  noteIds : List String
deriving DecidableEq

/-- The three possible values of the optional `Note.type` field
(`'default' | 'context' | 'personal-response'` in `src/types.ts`).
A missing field is `none`; in JavaScript all three string values are truthy. -/
inductive NoteType
  | default
  | context
  | personalResponse
deriving DecidableEq

/-- `src/types.ts` `NotePosition`. -/
structure NotePosition where
  x : Int
  y : Int
deriving DecidableEq

/-- `src/types.ts` `Note` (timestamps omitted, see the module docstring). -/
structure Note where
  id : String
  content : String
  position : NotePosition
  textReferences : List String
  linkedNotes : List String
  type : Option NoteType := none
  isCollapsed : Option Bool := none
  width : Option Int := none
deriving DecidableEq

/-- `src/types.ts` `Connection` (the constant `type` field omitted). -/
structure Connection where
  id : String
  fromNoteId : String
  toNoteId : String
deriving DecidableEq

/-- `src/types.ts` `Poem`. -/
structure Poem where
  content : String
  highlights : List Highlight
deriving DecidableEq

/-- `src/types.ts` `Project` (timestamps omitted). -/
structure Project where
  projectId : String
  version : String
  title : String
  poem : Poem
  notes : List Note
  connections : List Connection
deriving DecidableEq

/-- The payload of `UPDATE_NOTE` (`src/types.ts` `ProjectAction`):
`{ id; content?; isCollapsed?; width? }`.  An absent optional field leaves the
corresponding note field unchanged when the payload is spread over the note. -/
structure NoteUpdate where
  id : String
  content : Option String := none
  isCollapsed : Option Bool := none
  width : Option Int := none
deriving DecidableEq

/-- `src/types.ts` `ProjectAction`. -/
inductive ProjectAction
  | setProject (payload : Project)
  | updateTitle (payload : String)
  | updatePoemContent (payload : String)
  | addHighlight (payload : Highlight)
  | removeHighlight (payload : String)
  | addNote (payload : Note)
  | updateNote (payload : NoteUpdate)
  | updateNotePosition (id : String) (position : NotePosition)
  | deleteNote (payload : String)
  | linkNotes (fromId toId : String)
  | unlinkNotes (fromId toId : String)
  | addConnection (payload : Connection)
  | removeConnection (payload : String)
  | toggleNoteCollapse (payload : String)
deriving DecidableEq

/-- The permanent context note pushed by `createEmptyProject`,
`ensureSpecialNotes` and `importProject` in `src/contexts/ProjectContext.tsx`. -/
def contextNote : Note :=
  { id := "note-context"
    content := ""
    position := ⟨50, 50⟩
    textReferences := []
    linkedNotes := []
    type := some .context
    isCollapsed := some true }

/-- The permanent personal-response note pushed by `createEmptyProject`,
`ensureSpecialNotes` and `importProject`. -/
def personalResponseNote : Note :=
  { id := "note-personal-response"
    content := ""
    position := ⟨50, 150⟩
    textReferences := []
    linkedNotes := []
    type := some .personalResponse
    isCollapsed := some true }

/-- `createEmptyProject` from `src/contexts/ProjectContext.tsx` (the fresh
`uuidv4()` project id is a parameter). -/
def createEmptyProject (projectId : String) : Project :=
  { projectId := projectId
    version := "1.0"
    title := "Untitled Project"
    poem := { content := "", highlights := [] }
    notes := [contextNote, personalResponseNote]
    connections := [] }

/-- The four substring tests `projectReducer` applies to decide whether a
highlight id is still anchored in the new poem content
(`UPDATE_POEM_CONTENT`, `ProjectContext.tsx` lines 64-69). -/
def highlightStillAnchored (newContent : String) (hid : String) : Bool :=
  strIncludes newContent ("data-highlight-id=\"" ++ hid ++ "\"") ||
  strIncludes newContent ("data-highlight-id=\"" ++ hid ++ ",") ||
  strIncludes newContent ("," ++ hid ++ "\"") ||
  strIncludes newContent ("," ++ hid ++ ",")

/-- `projectReducer` from `src/contexts/ProjectContext.tsx`, case by case.
JavaScript truthiness of `note.type` (an optional non-empty string) is
`Option.isSome`; `noteToDelete?.type` is truthy exactly when the `find` hit
a note whose `type` field is present. -/
def projectReducer (state : Project) (action : ProjectAction) : Project :=
  match action with
  | .setProject payload => payload
  | .updateTitle payload => { state with title := payload }
  | .updatePoemContent newContent =>
    let updatedHighlights := state.poem.highlights.filter fun h =>
      highlightStillAnchored newContent h.id
    let updatedNotes := state.notes.filter fun note =>
      note.type.isSome ||
      (updatedHighlights.any fun h => note.textReferences.contains h.id) ||
      (state.connections.any fun c =>
        c.fromNoteId == note.id || c.toNoteId == note.id) ||
      (!note.linkedNotes.isEmpty ||
        state.notes.any fun n => n.linkedNotes.contains note.id)
    { state with
      poem := { content := newContent, highlights := updatedHighlights }
      notes := updatedNotes }
  | .addHighlight payload =>
    { state with
      poem := { state.poem with highlights := state.poem.highlights ++ [payload] } }
  | .removeHighlight payload =>
    { state with
      poem := { state.poem with
        highlights := state.poem.highlights.filter fun h => h.id != payload } }
  | .addNote payload => { state with notes := state.notes ++ [payload] }
  | .updateNote payload =>
    { state with notes := state.notes.map fun note =>
        if note.id == payload.id then
          { note with
            content := payload.content.getD note.content
            isCollapsed := match payload.isCollapsed with
              | some b => some b
              | none => note.isCollapsed
            width := match payload.width with
              | some w => some w
              | none => note.width }
        else note }
  | .updateNotePosition id position =>
    { state with notes := state.notes.map fun note =>
        if note.id == id then { note with position := position } else note }
  | .deleteNote noteId =>
    if (state.notes.find? fun n => n.id == noteId).any (fun n => n.type.isSome) then
      state
    else
      let updatedHighlights :=
        (state.poem.highlights.map fun h =>
          { h with noteIds := h.noteIds.filter fun i => i != noteId }).filter
          fun h => !h.noteIds.isEmpty
      let updatedConnections := state.connections.filter fun c =>
        c.fromNoteId != noteId && c.toNoteId != noteId
      let updatedNotes := (state.notes.filter fun n => n.id != noteId).map fun n =>
        { n with linkedNotes := n.linkedNotes.filter fun i => i != noteId }
      { state with
        notes := updatedNotes
        poem := { state.poem with highlights := updatedHighlights }
        connections := updatedConnections }
  | .linkNotes fromId toId =>
    { state with notes := state.notes.map fun note =>
        if note.id == fromId && !note.linkedNotes.contains toId then
          { note with linkedNotes := note.linkedNotes ++ [toId] }
        else note }
  | .unlinkNotes fromId toId =>
    { state with
      notes := state.notes.map fun note =>
        if note.id == fromId then
          { note with linkedNotes := note.linkedNotes.filter fun i => i != toId }
        else note
      connections := state.connections.filter fun c =>
        !(c.fromNoteId == fromId && c.toNoteId == toId) }
  | .addConnection payload =>
    { state with connections := state.connections ++ [payload] }
  | .removeConnection payload =>
    { state with connections := state.connections.filter fun c => c.id != payload }
  | .toggleNoteCollapse payload =>
    { state with notes := state.notes.map fun note =>
        if note.id == payload then
          { note with isCollapsed := some (!(note.isCollapsed.getD false)) }
        else note }

/-- A project file as `importProject` sees it: the fields a parsed JSON
payload may or may not carry.  `some ""` for `projectId` models an empty
(hence falsy) id string. -/
structure ImportPayload where
  projectId : Option String
  version : Option String
  title : Option String
  poem : Option Poem
  notes : Option (List Note)
  connections : Option (List Connection)
deriving DecidableEq

/-- The serialisation side of `exportProject`: every field of the project is
present in the emitted JSON (JSON stringify/parse of the data model is
modelled as the identity on the abstract value). -/
def exportProject (p : Project) : ImportPayload :=
  { projectId := some p.projectId
    version := some p.version
    title := some p.title
    poem := some p.poem
    notes := some p.notes
    connections := some p.connections }

/-- The special-note completion step of `importProject`
(`ProjectContext.tsx` lines 436-468): push the context note and then the
personal-response note for whichever of the two ids is missing. -/
def ensureSpecialNotes (notes : List Note) : List Note :=
  let hasContext := notes.any fun n => n.id == "note-context"
  let hasPersonal := notes.any fun n => n.id == "note-personal-response"
  if hasContext && hasPersonal then notes
  else
    (if hasContext then notes else notes ++ [contextNote]) ++
      (if hasPersonal then [] else [personalResponseNote])

/-- `importProject` from `src/contexts/ProjectContext.tsx`: validate that
`projectId` (truthy, i.e. present and non-empty), `poem` and `notes` are all
present; on failure the error propagates before any dispatch, so the current
store state is returned unchanged with the failure flag; on success the
special notes are ensured and the payload becomes the new state via
`SET_PROJECT`.  Unvalidated absent fields are defaulted when rebuilding the
state value (never exercised below: successful imports in the theorems come
from `exportProject`, which populates every field). -/
def importProject (current : Project) (payload : ImportPayload) : Project × Bool :=
  if (payload.projectId.any fun s => s != "") &&
      payload.poem.isSome && payload.notes.isSome then
    ({ projectId := payload.projectId.getD ""
       version := payload.version.getD ""
       title := payload.title.getD ""
       poem := payload.poem.getD { content := "", highlights := [] }
       notes := ensureSpecialNotes (payload.notes.getD [])
       connections := payload.connections.getD [] }, true)
  else (current, false)

/-- `src/utils/layoutAlgorithm.ts` `LayoutConfig` (merged with
`DEFAULT_CONFIG`, so every field is present). -/
structure LayoutConfig where
  canvasWidth : Int
  canvasHeight : Int
  noteWidth : Int
  noteHeight : Int
  padding : Int
  startX : Int
  startY : Int
deriving DecidableEq

/-- `DEFAULT_CONFIG` from `src/utils/layoutAlgorithm.ts`. -/
def DEFAULT_CONFIG : LayoutConfig :=
  { canvasWidth := 600
    canvasHeight := 800
    noteWidth := 200
    noteHeight := 120
    padding := 20
    startX := 50
    startY := 50 }

/-- An entry of `occupiedAreas` in `calculateNotePositions`. -/
structure OccupiedArea where
  x : Int
  y : Int
  width : Int
  height : Int
deriving DecidableEq

/-- `hasCollision` from `src/utils/layoutAlgorithm.ts`: strict axis-aligned
rectangle overlap against any occupied area. -/
def hasCollision (x y width height : Int) (occupiedAreas : List OccupiedArea) : Bool :=
  occupiedAreas.any fun area =>
    x < area.x + area.width && x + width > area.x &&
    y < area.y + area.height && y + height > area.y

/-- `maxCols`: `Math.max(Math.floor((canvasWidth - startX) / (noteWidth +
padding)), 1)`.  `Math.floor` of the real quotient of two integers is
`Int.fdiv` (the source never divides by zero in the inputs considered
below). -/
def maxCols (cfg : LayoutConfig) : Int :=
  max (Int.fdiv (cfg.canvasWidth - cfg.startX) (cfg.noteWidth + cfg.padding)) 1

/-- The raw grid x-coordinate for the note at position `index` of the input
list: `startX + (index % maxCols) * (noteWidth + padding)`. -/
def rawX (cfg : LayoutConfig) (index : Nat) : Int :=
  cfg.startX + ((index : Int) % maxCols cfg) * (cfg.noteWidth + cfg.padding)

/-- The raw grid y-coordinate for the note at position `index` of the input
list: `startY + Math.floor(index / maxCols) * (noteHeight + padding)`. -/
def rawY (cfg : LayoutConfig) (index : Nat) : Int :=
  cfg.startY + Int.fdiv (index : Int) (maxCols cfg) * (cfg.noteHeight + cfg.padding)

/-- The collision-avoidance loop of `calculateNotePositions`: while the
candidate collides and attempts remain, move down one row height plus
padding, wrapping to `startY` and the next column when the candidate would
leave the canvas; when attempts run out the last candidate is accepted even
if it still collides. -/
def findFreePosition (cfg : LayoutConfig) (occ : List OccupiedArea) :
    Nat → Int → Int → Int × Int
  | 0, x, y => (x, y)
  | fuel + 1, x, y =>
    if hasCollision x y cfg.noteWidth cfg.noteHeight occ then
      let y1 := y + cfg.noteHeight + cfg.padding
      if y1 + cfg.noteHeight > cfg.canvasHeight then
        findFreePosition cfg occ fuel (x + cfg.noteWidth + cfg.padding) cfg.startY
      else
        findFreePosition cfg occ fuel x y1
    else (x, y)

/-- One placement of `calculateNotePositions`: a note already carrying a
non-origin position keeps it; otherwise the search starts from the raw grid
cell of the note's index in the full input list, with at most 50 attempts. -/
def placeNote (cfg : LayoutConfig) (occ : List OccupiedArea) (index : Nat)
    (note : Note) : NotePosition :=
  if note.position.x != 0 || note.position.y != 0 then note.position
  else
    let p := findFreePosition cfg occ 50 (rawX cfg index) (rawY cfg index)
    ⟨p.1, p.2⟩

/-- The `notes.forEach` loop of `calculateNotePositions`, carrying the
running element index, the association list standing for the `positions`
map, and the `occupiedAreas` list. -/
def calculateNotePositionsGo (cfg : LayoutConfig) :
    List Note → Nat → List (String × NotePosition) → List OccupiedArea →
    List (String × NotePosition) × List OccupiedArea
  | [], _, positions, occ => (positions, occ)
  | note :: rest, index, positions, occ =>
    let p := placeNote cfg occ index note
    calculateNotePositionsGo cfg rest (index + 1)
      (positions ++ [(note.id, p)])
      (occ ++ [⟨p.x, p.y, cfg.noteWidth, cfg.noteHeight⟩])

/-- `calculateNotePositions` from `src/utils/layoutAlgorithm.ts`. -/
def calculateNotePositions (notes : List Note) (cfg : LayoutConfig) :
    List (String × NotePosition) :=
  (calculateNotePositionsGo cfg notes 0 [] []).1

/-- `Map.get` on the positions map: the most recently `set` binding wins. -/
def lookupPos (positions : List (String × NotePosition)) (id : String) :
    Option NotePosition :=
  positions.foldl (fun acc e => if e.1 == id then some e.2 else acc) none

/-- A rectangle as consumed by `getIntersection` in
`src/components/Notes/Note.tsx` (geometry is real-valued, modelled over ℚ). -/
structure GRect where
  x : ℚ
  y : ℚ
  width : ℚ
  height : ℚ
deriving DecidableEq

/-- `getIntersection` from `src/components/Notes/Note.tsx`: the point where
the ray from `(startX, startY)` toward the centre of `rect` meets the
rectangle's border, with the centre returned in the degenerate case. -/
def getIntersection (startX startY : ℚ) (rect : GRect) : ℚ × ℚ :=
  let targetX := rect.x + rect.width / 2
  let targetY := rect.y + rect.height / 2
  let dx := targetX - startX
  let dy := targetY - startY
  if dx = 0 ∧ dy = 0 then (targetX, targetY)
  else
    let slope := dy / dx
    if |dy / rect.height| > |dx / rect.width| then
      let y := if dy > 0 then rect.y else rect.y + rect.height
      (startX + (y - startY) / slope, y)
    else
      let x := if dx > 0 then rect.x else rect.x + rect.width
      (x, startY + (x - startX) * slope)

/-- Modelled from the spec: "its id still appears as an anchor marker in the
new content (a marker may carry a comma-joined list of multiple highlight ids
co-located on the same span; presence in any such list counts as present)".
The content carries an anchor marker `data-highlight-id="…"` whose
comma-joined id list contains `hid`.  This is the spec-side notion the
reducer's substring tests are compared against. -/
def specAnchorMarkerPresent (content hid : String) : Prop :=
  ∃ ids : List String,
    strIncludes content
      ("data-highlight-id=\"" ++ String.intercalate "," ids ++ "\"") = true ∧
    hid ∈ ids

/-- `C6`: an import payload missing `projectId`, `poem` or `notes` is
rejected: the result flag is false and the current store state is returned
untouched (validation happens before any dispatch). -/
theorem importProject_rejects_incomplete (current : Project) (payload : ImportPayload)
    (h : payload.projectId = none ∨ payload.poem = none ∨ payload.notes = none) :
    importProject current payload = (current, false) := by
  unfold importProject
  rcases h with h | h | h <;> simp [h, Option.any]

/-- Witness for `importProject_rejects_incomplete`: the all-absent payload is
rejected against the empty project. -/
theorem importProject_rejects_incomplete_witness :
    importProject (createEmptyProject "p0")
      ⟨none, none, none, none, none, none⟩ = (createEmptyProject "p0", false) :=
  importProject_rejects_incomplete (createEmptyProject "p0")
    ⟨none, none, none, none, none, none⟩ (Or.inl rfl)

/-- `C5`: exporting a project that already contains the two special notes and
importing the exported payload leaves the store state equal to the pre-export
state (when the exported id happens to be the empty string the import is
rejected, which also leaves the state untouched; otherwise the payload is
re-installed verbatim, the special-note completion adding nothing). -/
theorem export_import_roundtrip (p : Project)
    (hc : (p.notes.any fun n => n.id == "note-context") = true)
    (hp : (p.notes.any fun n => n.id == "note-personal-response") = true) :
    (importProject p (exportProject p)).1 = p := by
  unfold importProject exportProject ensureSpecialNotes
  by_cases hid : p.projectId = ""
  · simp [hid, Option.any]
  · simp [Option.any, hid, hc, hp]

/-- Witness for `export_import_roundtrip` on the empty project (which
contains both special notes). -/
theorem export_import_roundtrip_witness :
    (importProject (createEmptyProject "p1")
      (exportProject (createEmptyProject "p1"))).1 = createEmptyProject "p1" :=
  export_import_roundtrip (createEmptyProject "p1") (by decide) (by decide)

/-- In a note list with pairwise-distinct ids, looking up a member note by
its own id finds exactly that note. -/
theorem find?_by_id_of_nodup (l : List Note) (n : Note)
    (hnodup : (l.map Note.id).Nodup) (hmem : n ∈ l) :
    (l.find? fun m => m.id == n.id) = some n := by
  induction l with
  | nil => cases hmem
  | cons a tl ih =>
    rcases List.mem_cons.mp hmem with h | h
    · subst h
      simp [List.find?_cons]
    · have hne : a.id ≠ n.id := by
        intro he
        have : n.id ∈ tl.map Note.id := List.mem_map_of_mem Note.id h
        rw [List.map_cons] at hnodup
        exact (List.nodup_cons.mp hnodup).1 (he ▸ this)
      have hid : (a.id == n.id) = false := by
        simp [hne]
      rw [List.find?_cons, hid]
      exact ih (List.map_cons Note.id a tl ▸ hnodup).of_cons h

/-- `C10`: a note whose optional `type` field is set — to any of the three
values, including `'default'` — is exempt both from `deleteNote` (the guard
`noteToDelete?.type` is truthy, so the transition is the identity) and from
the reconciliation pruning of `setDocumentContent` (the survival filter keeps
every typed note regardless of its references, connections or links). -/
theorem typed_notes_exempt (s : Project) (n : Note) (t : NoteType) (c : String)
    (hnodup : (s.notes.map Note.id).Nodup)
    (hmem : n ∈ s.notes) (htype : n.type = some t) :
    projectReducer s (.deleteNote n.id) = s ∧
    n ∈ (projectReducer s (.updatePoemContent c)).notes := by
  constructor
  · have hfind := find?_by_id_of_nodup s.notes n hnodup hmem
    simp [projectReducer, hfind, htype]
  · simp only [projectReducer]
    refine List.mem_filter.mpr ⟨hmem, ?_⟩
    simp [htype]

/-- A `'default'`-typed note, used to exercise the exemption theorems. -/
def defaultTypedNote : Note :=
  { id := "d1", content := "", position := ⟨0, 0⟩
    textReferences := [], linkedNotes := [], type := some .default }

/-- A one-note store holding only `defaultTypedNote`. -/
def defaultTypedState : Project :=
  { projectId := "p2", version := "1.0", title := ""
    poem := { content := "", highlights := [] }
    notes := [defaultTypedNote]
    connections := [] }

/-- Witness for `typed_notes_exempt`: a `'default'`-typed note survives
`deleteNote` of its own id. -/
theorem typed_notes_exempt_witness :
    projectReducer defaultTypedState (.deleteNote defaultTypedNote.id) =
      defaultTypedState :=
  (typed_notes_exempt defaultTypedState defaultTypedNote .default ""
    (by decide) (by decide) rfl).1

/-- `find?` hits in the left part of an append stay hits. -/
theorem find?_append_some {α : Type} {p : α → Bool} (l1 l2 : List α) (a : α)
    (h : l1.find? p = some a) : (l1 ++ l2).find? p = some a := by
  induction l1 with
  | nil => cases h
  | cons b tl ih =>
    rw [List.cons_append, List.find?_cons] at *
    cases hb : p b with
    | true => rw [hb] at h; simpa [hb] using h
    | false => rw [hb] at h; simpa [hb] using ih h

/-- The note-list transformation of `DELETE_NOTE` (drop the deleted id, strip
it from `linkedNotes`) does not disturb a `find?` by a different id: the
found note is merely stripped. -/
theorem find?_delete_transform (l : List Note) (X noteId : String)
    (hne : X ≠ noteId) (nc : Note)
    (h : (l.find? fun n => n.id == X) = some nc) :
    (((l.filter fun n => n.id != noteId).map fun n =>
        { n with linkedNotes := n.linkedNotes.filter fun i => i != noteId }).find?
      fun n => n.id == X) =
      some { nc with linkedNotes := nc.linkedNotes.filter fun i => i != noteId } := by
  induction l with
  | nil => cases h
  | cons a tl ih =>
    rw [List.find?_cons] at h
    cases hid : (a.id == X) with
    | true =>
      rw [hid] at h
      injection h with h
      subst h
      have haX : a.id = X := eq_of_beq hid
      have hk : (a.id != noteId) = true := by simp [haX, hne]
      simp only [List.filter_cons, hk, if_true, List.map_cons, List.find?_cons]
      simp [hid]
    | false =>
      rw [hid] at h
      cases hk : (a.id != noteId) with
      | true =>
        simp only [List.filter_cons, hk, if_true, List.map_cons, List.find?_cons]
        simpa [hid] using ih h
      | false =>
        simp only [List.filter_cons, hk, Bool.false_eq_true, if_false]
        exact ih h

/-- Both special-type notes are present in the note set. -/
def specialNotesPresent (s : Project) : Bool :=
  (s.notes.any fun n => n.type == some NoteType.context) &&
  (s.notes.any fun n => n.type == some NoteType.personalResponse)

/-- The strengthened invariant behind `C3`: the first note carrying each
special id is a note of the corresponding special type (so `DELETE_NOTE`'s
`find`-based guard always fires for those ids). -/
def SpecialInv (s : Project) : Prop :=
  (∃ nc, (s.notes.find? fun n => n.id == "note-context") = some nc ∧
    nc.type = some NoteType.context) ∧
  (∃ np, (s.notes.find? fun n => n.id == "note-personal-response") = some np ∧
    np.type = some NoteType.personalResponse)

/-- The empty project satisfies the special-note invariant. -/
theorem specialInv_empty (pid : String) : SpecialInv (createEmptyProject pid) :=
  ⟨⟨contextNote, rfl, rfl⟩, ⟨personalResponseNote, rfl, rfl⟩⟩

/-- `ADD_NOTE` and `DELETE_NOTE` preserve the special-note invariant. -/
theorem specialInv_step (s : Project) (a : ProjectAction)
    (ha : (∃ n, a = ProjectAction.addNote n) ∨ (∃ i, a = ProjectAction.deleteNote i))
    (hinv : SpecialInv s) : SpecialInv (projectReducer s a) := by
  obtain ⟨⟨nc, hnc, hnct⟩, ⟨np, hnp, hnpt⟩⟩ := hinv
  rcases ha with ⟨n, rfl⟩ | ⟨i, rfl⟩
  · refine ⟨⟨nc, ?_, hnct⟩, ⟨np, ?_, hnpt⟩⟩
    · exact find?_append_some s.notes [n] nc hnc
    · exact find?_append_some s.notes [n] np hnp
  · by_cases hg : ((s.notes.find? fun n => n.id == i).any fun n => n.type.isSome) = true
    · simp only [projectReducer, hg, if_true]
      exact ⟨⟨nc, hnc, hnct⟩, ⟨np, hnp, hnpt⟩⟩
    · have hne_c : "note-context" ≠ i := by
        intro he
        subst he
        rw [hnc] at hg
        simp [hnct] at hg
      have hne_p : "note-personal-response" ≠ i := by
        intro he
        subst he
        rw [hnp] at hg
        simp [hnpt] at hg
      simp only [projectReducer, hg, if_false, Bool.false_eq_true]
      refine ⟨⟨_, find?_delete_transform s.notes _ i hne_c nc hnc, hnct⟩,
        ⟨_, find?_delete_transform s.notes _ i hne_p np hnp, hnpt⟩⟩

/-- The special-note invariant implies both special-type notes are present. -/
theorem specialInv_present (s : Project) (h : SpecialInv s) :
    specialNotesPresent s = true := by
  obtain ⟨⟨nc, hnc, hnct⟩, ⟨np, hnp, hnpt⟩⟩ := h
  have hmc := List.mem_of_find?_eq_some hnc
  have hmp := List.mem_of_find?_eq_some hnp
  unfold specialNotesPresent
  rw [Bool.and_eq_true, List.any_eq_true, List.any_eq_true]
  exact ⟨⟨nc, hmc, by simp [hnct]⟩, ⟨np, hmp, by simp [hnpt]⟩⟩

/-- `C3`: starting from the empty project, after any prefix of any sequence
of `addNote`/`deleteNote` transitions, the two special-type notes (type
`context` and type `personal-response`) are present in the note set. -/
theorem special_notes_never_absent (pid : String) (acts : List ProjectAction) (k : Nat)
    (ha : ∀ a ∈ acts,
      (∃ n, a = ProjectAction.addNote n) ∨ (∃ i, a = ProjectAction.deleteNote i)) :
    specialNotesPresent ((acts.take k).foldl projectReducer (createEmptyProject pid)) =
      true := by
  have hfold : ∀ (l : List ProjectAction) (s : Project),
      (∀ a ∈ l, (∃ n, a = ProjectAction.addNote n) ∨
        (∃ i, a = ProjectAction.deleteNote i)) →
      SpecialInv s → SpecialInv (l.foldl projectReducer s) := by
    intro l
    induction l with
    | nil => intro s _ hs; exact hs
    | cons a tl ih =>
      intro s hl hs
      exact ih (projectReducer s a) (fun b hb => hl b (List.mem_cons_of_mem a hb))
        (specialInv_step s a (hl a (List.mem_cons_self a tl)) hs)
  refine specialInv_present _ (hfold (acts.take k) (createEmptyProject pid) ?_
    (specialInv_empty pid))
  intro a hak
  exact ha a ((List.take_sublist k acts).subset hak)

/-- Witness for `special_notes_never_absent`: add an untyped note, then try
to delete the context note. -/
theorem special_notes_never_absent_witness :
    specialNotesPresent
      (([ProjectAction.addNote defaultTypedNote,
         ProjectAction.deleteNote "note-context"].take 2).foldl
        projectReducer (createEmptyProject "p3")) = true := by
  refine special_notes_never_absent "p3" _ 2 ?_
  intro a ha
  fin_cases ha
  · exact Or.inl ⟨defaultTypedNote, rfl⟩
  · exact Or.inr ⟨"note-context", rfl⟩

/-- A store in which no note has id `"ghost"` but a connection dangles from
`"ghost"` (reachable: `ADD_CONNECTION` appends its payload unvalidated). -/
def danglingConnectionState : Project :=
  { createEmptyProject "p4" with
    connections := [{ id := "c1", fromNoteId := "ghost", toNoteId := "note-context" }] }

/-- Counterexample to `C1` as stated: no note with id `"ghost"` exists in
`danglingConnectionState`, yet `deleteNote "ghost"` is not a no-op — the
guard only checks `noteToDelete?.type`, so the cascade still runs and drops
the connection dangling from `"ghost"`. -/
theorem deleteNote_missing_id_not_noop :
    (danglingConnectionState.notes.all fun n => n.id != "ghost") = true ∧
    projectReducer danglingConnectionState (.deleteNote "ghost") ≠
      danglingConnectionState := by
  decide

/-- `C1` (amended): `deleteNote id` is the identity when the note the guard
finds under `id` carries a set `type`; otherwise (untyped note, or no note
with that id at all) the single transition strips `id` from every
highlight's `noteIds` and drops highlights left empty, drops every
connection with `id` as an endpoint, strips `id` from every remaining note's
`linkedNotes`, and removes every note with that id — each listed both as a
guarantee on the result and as preservation of the untouched elements. -/
theorem deleteNote_characterization (s : Project) (id : String) :
    (((s.notes.find? fun n => n.id == id).any fun n => n.type.isSome) = true →
      projectReducer s (.deleteNote id) = s) ∧
    (((s.notes.find? fun n => n.id == id).any fun n => n.type.isSome) = false →
      ((∀ h ∈ (projectReducer s (.deleteNote id)).poem.highlights,
          id ∉ h.noteIds ∧ h.noteIds ≠ []) ∧
       (∀ h ∈ s.poem.highlights, (h.noteIds.filter fun i => i != id) ≠ [] →
          { h with noteIds := h.noteIds.filter fun i => i != id } ∈
            (projectReducer s (.deleteNote id)).poem.highlights) ∧
       (∀ c ∈ (projectReducer s (.deleteNote id)).connections,
          c.fromNoteId ≠ id ∧ c.toNoteId ≠ id) ∧
       (∀ c ∈ s.connections, c.fromNoteId ≠ id → c.toNoteId ≠ id →
          c ∈ (projectReducer s (.deleteNote id)).connections) ∧
       (∀ n ∈ (projectReducer s (.deleteNote id)).notes,
          n.id ≠ id ∧ id ∉ n.linkedNotes) ∧
       (∀ n ∈ s.notes, n.id ≠ id →
          { n with linkedNotes := n.linkedNotes.filter fun i => i != id } ∈
            (projectReducer s (.deleteNote id)).notes))) := by
  constructor
  · intro hg
    simp [projectReducer, hg]
  · intro hg
    simp only [projectReducer, hg, Bool.false_eq_true, if_false]
    refine ⟨?_, ?_, ?_, ?_, ?_, ?_⟩
    · intro h hmem
      obtain ⟨hmap, hne⟩ := List.mem_filter.mp hmem
      obtain ⟨h0, _, rfl⟩ := List.mem_map.mp hmap
      constructor
      · intro hin
        have := (List.mem_filter.mp hin).2
        simp at this
      · intro hempty
        rw [hempty] at hne
        simp at hne
    · intro h hmem hne
      refine List.mem_filter.mpr ⟨List.mem_map_of_mem _ hmem, ?_⟩
      simpa using hne
    · intro c hmem
      have := (List.mem_filter.mp hmem).2
      constructor
      · intro he
        simp [he] at this
      · intro he
        simp [he] at this
    · intro c hmem h1 h2
      exact List.mem_filter.mpr ⟨hmem, by simp [h1, h2]⟩
    · intro n hmem
      obtain ⟨n0, hn0, rfl⟩ := List.mem_map.mp hmem
      have hid := (List.mem_filter.mp hn0).2
      constructor
      · simpa using hid
      · intro hin
        have := (List.mem_filter.mp hin).2
        simp at this
    · intro n hmem hne
      exact List.mem_map_of_mem _ (List.mem_filter.mpr ⟨hmem, by simp [hne]⟩)

/-- Witness for `deleteNote_characterization`: deleting the context note of
the empty project is a no-op (first component, guard true), and for
`defaultTypedState` the guard is false on id `"zz"`, under which the result
keeps no note with id `"zz"` (from the fifth component). -/
theorem deleteNote_characterization_witness :
    projectReducer (createEmptyProject "p5") (.deleteNote "note-context") =
      createEmptyProject "p5" :=
  (deleteNote_characterization (createEmptyProject "p5") "note-context").1 (by decide)

/-- A prefix occurrence is no longer than the scanned list. -/
theorem listPrefixB_length {p s : List Char} (h : listPrefixB p s = true) :
    p.length ≤ s.length := by
  induction p generalizing s with
  | nil => exact Nat.zero_le _
  | cons a as ih =>
    cases s with
    | nil => cases h
    | cons b bs =>
      rw [listPrefixB, Bool.and_eq_true] at h
      simpa using ih h.2

/-- An infix occurrence is no longer than the scanned list. -/
theorem listInfixB_length {p s : List Char} (h : listInfixB p s = true) :
    p.length ≤ s.length := by
  induction s with
  | nil =>
    rw [listInfixB] at h
    simp [eq_of_beq h]
  | cons b bs ih =>
    rw [listInfixB, Bool.or_eq_true] at h
    rcases h with h | h
    · exact listPrefixB_length h
    · exact Nat.le_succ_of_le (ih h)

/-- `s.includes(pat)` forces `pat` to fit inside `s`. -/
theorem strIncludes_length {s pat : String} (h : strIncludes s pat = true) :
    pat.length ≤ s.length :=
  listInfixB_length h

/-- A highlight whose anchor markers are gone but whose id happens to occur,
comma-adjacent, in the plain text of the new content. -/
def strayTextHighlight : Highlight :=
  { id := "h1", lineIndex := 0, startOffset := 0, endOffset := 2
    text := "ab", noteIds := ["note-context"] }

/-- A store holding `strayTextHighlight`. -/
def strayTextState : Project :=
  { createEmptyProject "p6" with
    poem := { content := "x", highlights := [strayTextHighlight] } }

/-- Counterexample to `C2` as stated: the new content `,h1"` contains no
anchor marker at all (so the highlight id does not appear in any marker's
comma-joined list), yet the reducer keeps the highlight, because its raw
substring test `content.includes(",h1\"")` fires on the stray text. -/
theorem updatePoemContent_keeps_unanchored_highlight :
    strayTextHighlight ∈
      (projectReducer strayTextState (.updatePoemContent ",h1\"")).poem.highlights ∧
    ¬ specAnchorMarkerPresent ",h1\"" "h1" := by
  constructor
  · decide
  · rintro ⟨ids, hinc, -⟩
    have hlen := strIncludes_length hinc
    rw [String.length_append, String.length_append] at hlen
    have h4 : (",h1\"" : String).length = 4 := by decide
    have h19 : ("data-highlight-id=\"" : String).length = 19 := by decide
    omega

/-- `C2` (amended): `setDocumentContent` keeps a highlight exactly when one
of the reducer's four substring patterns for its id occurs in the new
content (`data-highlight-id="id"`, `data-highlight-id="id,`, `,id"`,
`,id,`) — a test that agrees with anchor-marker membership on well-formed
content but can also fire on incidental comma-adjacent text — and keeps a
note exactly when its `type` is set, or it has a surviving `textReferences`
entry, or a connection references it, or its `linkedNotes` is non-empty, or
some note's `linkedNotes` references it. -/
theorem updatePoemContent_characterization (s : Project) (c : String) :
    (∀ h ∈ s.poem.highlights,
      (h ∈ (projectReducer s (.updatePoemContent c)).poem.highlights ↔
        highlightStillAnchored c h.id = true)) ∧
    (∀ n ∈ s.notes,
      (n ∈ (projectReducer s (.updatePoemContent c)).notes ↔
        (n.type.isSome = true ∨
         (∃ h ∈ (projectReducer s (.updatePoemContent c)).poem.highlights,
            h.id ∈ n.textReferences) ∨
         (∃ cn ∈ s.connections, cn.fromNoteId = n.id ∨ cn.toNoteId = n.id) ∨
         n.linkedNotes ≠ [] ∨
         (∃ m ∈ s.notes, n.id ∈ m.linkedNotes)))) ∧
    (projectReducer s (.updatePoemContent c)).poem.content = c := by
  refine ⟨?_, ?_, rfl⟩
  · intro h hmem
    simp only [projectReducer]
    rw [List.mem_filter]
    simp [hmem]
  · intro n hmem
    simp only [projectReducer]
    rw [List.mem_filter]
    simp only [hmem, true_and, Bool.or_eq_true, Bool.not_eq_true', List.any_eq_true,
      beq_iff_eq, List.elem_iff, List.isEmpty_eq_false]
    aesop

/-- Witness for `updatePoemContent_characterization`: the kept/dropped test
for the stray-text highlight, with its membership hypothesis discharged. -/
theorem updatePoemContent_characterization_witness :
    strayTextHighlight ∈
        (projectReducer strayTextState (.updatePoemContent ",h1\"")).poem.highlights ↔
      highlightStillAnchored ",h1\"" strayTextHighlight.id = true :=
  (updatePoemContent_characterization strayTextState ",h1\"").1 strayTextHighlight
    (by decide)

/-- The §3 invariant: every id in every highlight's `noteIds` names a note
that exists in the note set. -/
def noteIdsValid (s : Project) : Bool :=
  s.poem.highlights.all fun h => h.noteIds.all fun nid =>
    s.notes.any fun n => n.id == nid

/-- `noteIdsValid` in quantifier form. -/
theorem noteIdsValid_iff (s : Project) :
    noteIdsValid s = true ↔
      ∀ h ∈ s.poem.highlights, ∀ nid ∈ h.noteIds, ∃ n ∈ s.notes, n.id = nid := by
  simp [noteIdsValid, List.all_eq_true, List.any_eq_true]

/-- A highlight whose `noteIds` names a nonexistent note. -/
def ghostHighlight : Highlight :=
  { id := "h9", lineIndex := 0, startOffset := 0, endOffset := 1
    text := "g", noteIds := ["ghost"] }

/-- Counterexample to `C4` as stated: `ADD_HIGHLIGHT` appends its payload
without validating `noteIds`, so one transition takes the empty project from
a state satisfying the invariant to one violating it. -/
theorem addHighlight_breaks_noteIds_invariant :
    noteIdsValid (createEmptyProject "p7") = true ∧
    noteIdsValid
      (projectReducer (createEmptyProject "p7") (.addHighlight ghostHighlight)) =
      false := by
  decide

/-- The transitions that do not inject or resurrect unvalidated note
references: everything except `SET_PROJECT` (installs an arbitrary payload),
`ADD_HIGHLIGHT` (appends an unvalidated `noteIds`), and
`UPDATE_POEM_CONTENT` (whose pruning can orphan a surviving highlight's
`noteIds` entry). -/
def preservesNoteRefs : ProjectAction → Bool
  | .setProject _ => false
  | .addHighlight _ => false
  | .updatePoemContent _ => false
  | _ => true

/-- Mapping an id-preserving function across the note set preserves "some
note has this id". -/
theorem exists_id_after_map (f : Note → Note) (hf : ∀ n, (f n).id = n.id)
    (l : List Note) (nid : String) (h : ∃ n ∈ l, n.id = nid) :
    ∃ n ∈ l.map f, n.id = nid := by
  obtain ⟨n, hn, rfl⟩ := h
  exact ⟨f n, List.mem_map_of_mem f hn, hf n⟩

/-- `C4` (amended): the invariant "every id in every highlight's `noteIds`
names an existing note" is preserved by every Graph Store transition except
`SET_PROJECT`, `ADD_HIGHLIGHT` and `UPDATE_POEM_CONTENT`. -/
theorem noteIdsValid_preserved (s : Project) (a : ProjectAction)
    (hs : noteIdsValid s = true) (ha : preservesNoteRefs a = true) :
    noteIdsValid (projectReducer s a) = true := by
  rw [noteIdsValid_iff] at hs
  cases a with
  | setProject p => simp [preservesNoteRefs] at ha
  | addHighlight p => simp [preservesNoteRefs] at ha
  | updatePoemContent p => simp [preservesNoteRefs] at ha
  | updateTitle p => exact (noteIdsValid_iff _).mpr hs
  | removeHighlight p =>
    rw [noteIdsValid_iff]
    intro h hmem nid hnid
    exact hs h (List.mem_filter.mp hmem).1 nid hnid
  | addNote p =>
    rw [noteIdsValid_iff]
    intro h hmem nid hnid
    obtain ⟨n, hn, hid⟩ := hs h hmem nid hnid
    exact ⟨n, List.mem_append_left _ hn, hid⟩
  | updateNote p =>
    rw [noteIdsValid_iff]
    intro h hmem nid hnid
    refine exists_id_after_map _ ?_ _ _ (hs h hmem nid hnid)
    intro n
    split <;> rfl
  | updateNotePosition id pos =>
    rw [noteIdsValid_iff]
    intro h hmem nid hnid
    refine exists_id_after_map _ ?_ _ _ (hs h hmem nid hnid)
    intro n
    split <;> rfl
  | linkNotes fromId toId =>
    rw [noteIdsValid_iff]
    intro h hmem nid hnid
    refine exists_id_after_map _ ?_ _ _ (hs h hmem nid hnid)
    intro n
    split <;> rfl
  | unlinkNotes fromId toId =>
    rw [noteIdsValid_iff]
    intro h hmem nid hnid
    refine exists_id_after_map _ ?_ _ _ (hs h hmem nid hnid)
    intro n
    split <;> rfl
  | addConnection p => exact (noteIdsValid_iff _).mpr hs
  | removeConnection p => exact (noteIdsValid_iff _).mpr hs
  | toggleNoteCollapse p =>
    rw [noteIdsValid_iff]
    intro h hmem nid hnid
    refine exists_id_after_map _ ?_ _ _ (hs h hmem nid hnid)
    intro n
    split <;> rfl
  | deleteNote noteId =>
    by_cases hg : ((s.notes.find? fun n => n.id == noteId).any
        fun n => n.type.isSome) = true
    · simp only [projectReducer, hg, if_true]
      exact (noteIdsValid_iff _).mpr hs
    · have hg2 : ((s.notes.find? fun n => n.id == noteId).any
          fun n => n.type.isSome) = false := eq_false_of_ne_true hg
      rw [noteIdsValid_iff]
      simp only [projectReducer, hg2, Bool.false_eq_true, if_false]
      intro h hmem nid hnid
      obtain ⟨hmap, -⟩ := List.mem_filter.mp hmem
      obtain ⟨h0, hh0, rfl⟩ := List.mem_map.mp hmap
      have hnid0 := List.mem_filter.mp hnid
      have hne : nid ≠ noteId := by simpa using hnid0.2
      obtain ⟨n, hn, hid⟩ := hs h0 hh0 nid hnid0.1
      refine ⟨{ n with linkedNotes := n.linkedNotes.filter fun i => i != noteId },
        List.mem_map_of_mem _ (List.mem_filter.mpr ⟨hn, ?_⟩), hid⟩
      simp [hid, hne]

/-- Witness for `noteIdsValid_preserved`: adding a note preserves the
invariant on the empty project. -/
theorem noteIdsValid_preserved_witness :
    noteIdsValid
      (projectReducer (createEmptyProject "p8") (.addNote defaultTypedNote)) =
      true :=
  noteIdsValid_preserved (createEmptyProject "p8") (.addNote defaultTypedNote)
    (by decide) rfl

/-- Folding the `lookupPos` step over a list from an arbitrary accumulator:
the result is the list's own last-wins lookup, falling back to the
accumulator. -/
theorem lookupPos_foldl (l : List (String × NotePosition))
    (acc : Option NotePosition) (k : String) :
    l.foldl (fun acc e => if e.1 == k then some e.2 else acc) acc =
      match lookupPos l k with
      | some v => some v
      | none => acc := by
  induction l generalizing acc with
  | nil => rfl
  | cons e tl ih =>
    simp only [lookupPos, List.foldl_cons]
    rw [ih (if e.1 == k then some e.2 else acc),
      ih (if e.1 == k then some e.2 else none)]
    simp only [lookupPos]
    cases tl.foldl (fun acc e => if e.1 == k then some e.2 else acc) none with
    | some v => rfl
    | none => cases he : (e.1 == k) <;> simp [he]

/-- `lookupPos` over an append: the right part wins when it binds the key. -/
theorem lookupPos_append (a b : List (String × NotePosition)) (k : String) :
    lookupPos (a ++ b) k =
      match lookupPos b k with
      | some v => some v
      | none => lookupPos a k := by
  rw [lookupPos, List.foldl_append]
  exact lookupPos_foldl b _ k

/-- A list binding none of the key's occurrences looks up to `none`. -/
theorem lookupPos_none (l : List (String × NotePosition)) (k : String)
    (h : ∀ e ∈ l, e.1 ≠ k) : lookupPos l k = none := by
  induction l with
  | nil => rfl
  | cons e tl ih =>
    rw [lookupPos, List.foldl_cons]
    have he : (e.1 == k) = false := by
      simpa using h e (List.mem_cons_self e tl)
    rw [he]
    exact ih fun x hx => h x (List.mem_cons_of_mem e hx)

/-- The `positions` accumulator of the placement loop is pass-through: the
loop appends its entries after the accumulator, and the occupied areas do
not depend on the accumulator at all. -/
theorem calculateNotePositionsGo_acc (cfg : LayoutConfig) (l : List Note)
    (idx : Nat) (ps : List (String × NotePosition)) (occ : List OccupiedArea) :
    calculateNotePositionsGo cfg l idx ps occ =
      (ps ++ (calculateNotePositionsGo cfg l idx [] occ).1,
        (calculateNotePositionsGo cfg l idx [] occ).2) := by
  induction l generalizing idx ps occ with
  | nil => simp [calculateNotePositionsGo]
  | cons note rest ih =>
    rw [calculateNotePositionsGo, calculateNotePositionsGo]
    rw [ih, ih (idx + 1) ([] ++ [(note.id, placeNote cfg occ idx note)])]
    simp

/-- Every key the placement loop emits is the id of one of its notes. -/
theorem calculateNotePositionsGo_keys (cfg : LayoutConfig) (l : List Note)
    (idx : Nat) (occ : List OccupiedArea) :
    ∀ e ∈ (calculateNotePositionsGo cfg l idx [] occ).1, e.1 ∈ l.map Note.id := by
  induction l generalizing idx occ with
  | nil => intro e he; cases he
  | cons note rest ih =>
    intro e he
    rw [calculateNotePositionsGo, calculateNotePositionsGo_acc] at he
    rcases List.mem_append.mp he with he | he
    · rcases List.mem_singleton.mp (by simpa using he) with rfl
      exact List.mem_cons_self _ _
    · exact List.mem_cons_of_mem _ (ih _ _ e he)

/-- Where the placement loop puts the note at position `i` of its input: the
final map binds that note's id to `placeNote` applied to the areas occupied
after the notes before it, at running index `idx + i` — provided no later
note reuses the id. -/
theorem lookupPos_calculateNotePositionsGo (cfg : LayoutConfig) (l : List Note)
    (idx : Nat) (ps : List (String × NotePosition)) (occ : List OccupiedArea)
    (i : Nat) (hi : i < l.length)
    (hsuf : ((l.drop (i + 1)).all fun m => m.id != (l.get ⟨i, hi⟩).id) = true) :
    lookupPos (calculateNotePositionsGo cfg l idx ps occ).1 (l.get ⟨i, hi⟩).id =
      some (placeNote cfg (calculateNotePositionsGo cfg (l.take i) idx [] occ).2
        (idx + i) (l.get ⟨i, hi⟩)) := by
  induction l generalizing idx ps occ i with
  | nil => exact absurd hi (Nat.not_lt_zero i)
  | cons note rest ih =>
    cases i with
    | zero =>
      have hget0 : (note :: rest).get ⟨0, hi⟩ = note := rfl
      rw [hget0] at hsuf ⊢
      rw [calculateNotePositionsGo, calculateNotePositionsGo_acc]
      have hsuf2 : ∀ m ∈ rest, (m.id != note.id) = true := List.all_eq_true.mp hsuf
      have hkeys : ∀ e ∈ (calculateNotePositionsGo cfg rest (idx + 1)
          []
          (occ ++ [⟨(placeNote cfg occ idx note).x, (placeNote cfg occ idx note).y,
            cfg.noteWidth, cfg.noteHeight⟩])).1,
          e.1 ≠ note.id := by
        intro e he
        have hkey := calculateNotePositionsGo_keys cfg rest _ _ e he
        obtain ⟨m, hm, hem⟩ := List.mem_map.mp hkey
        rw [← hem]
        exact bne_iff_ne.mp (hsuf2 m hm)
      rw [lookupPos_append, lookupPos_none _ _ hkeys, lookupPos_append]
      simp only [lookupPos, List.foldl_cons, List.foldl_nil, beq_self_eq_true, if_true]
      rfl
    | succ j =>
      have hj : j < rest.length := Nat.lt_of_succ_lt_succ hi
      rw [calculateNotePositionsGo]
      have hget : (note :: rest).get ⟨j + 1, hi⟩ = rest.get ⟨j, hj⟩ :=
        List.get_cons_succ
      rw [hget] at hsuf ⊢
      have hdrop : (note :: rest).drop (j + 1 + 1) = rest.drop (j + 1) := rfl
      rw [hdrop] at hsuf
      rw [ih (idx + 1) _ _ j hj hsuf]
      have htake : (note :: rest).take (j + 1) = note :: rest.take j := rfl
      rw [htake, calculateNotePositionsGo,
        calculateNotePositionsGo_acc cfg (rest.take j)]
      have harith : idx + 1 + j = idx + (j + 1) := by omega
      rw [harith,
        calculateNotePositionsGo_acc cfg (rest.take j) (idx + 1)
          ([] ++ [(note.id, placeNote cfg occ idx note)])]

/-- With pairwise-distinct note ids, no note after position `i` shares the
id of the note at position `i`. -/
theorem drop_all_ne_of_nodup (l : List Note) (i : Nat) (hi : i < l.length)
    (hnodup : (l.map Note.id).Nodup) :
    ((l.drop (i + 1)).all fun m => m.id != (l.get ⟨i, hi⟩).id) = true := by
  induction l generalizing i with
  | nil => exact absurd hi (Nat.not_lt_zero i)
  | cons a tl ih =>
    have hnd := List.nodup_cons.mp (List.map_cons Note.id a tl ▸ hnodup)
    cases i with
    | zero =>
      rw [List.all_eq_true]
      intro m hm
      rw [bne_iff_ne]
      intro he
      exact hnd.1 (he ▸ List.mem_map_of_mem Note.id hm)
    | succ j => exact ih j (Nat.lt_of_succ_lt_succ hi) hnd.2

/-- A note at (0, 0), placed by the grid. -/
def originNoteC8 : Note :=
  { id := "b", content := "", position := ⟨0, 0⟩
    textReferences := [], linkedNotes := [] }

/-- A note carrying a fixed non-origin position. -/
def fixedNoteC8 : Note :=
  { id := "a", content := "", position := ⟨5, 500⟩
    textReferences := [], linkedNotes := [] }

/-- Counterexample to `C8` as stated: in `[fixedNoteC8, originNoteC8]` under
the default config (`maxCols = 2`), the origin note is the 0th *new* note,
so the claim says its search starts at raw cell `(0, 0)`, i.e. `(50, 50)` —
a collision-free spot, as the second conjunct shows, so it would be placed
there.  The code instead indexes the grid by the note's position in the full
input list (index 1, cell `(1, 0)`) and places it at `(270, 50)`. -/
theorem layout_raw_cell_not_new_note_index :
    lookupPos (calculateNotePositions [fixedNoteC8, originNoteC8] DEFAULT_CONFIG)
        "b" = some ⟨270, 50⟩ ∧
    findFreePosition DEFAULT_CONFIG [⟨5, 500, 200, 120⟩] 50
        (rawX DEFAULT_CONFIG 0) (rawY DEFAULT_CONFIG 0) = (50, 50) ∧
    (⟨270, 50⟩ : NotePosition) ≠ ⟨50, 50⟩ := by
  decide

/-- `C8` (amended): in bulk layout, a note without a pre-existing non-origin
position starts its placement search at the raw grid cell
`(index mod columns, index div columns)` of its index in the *full* input
list — counting fixed-position notes too — and its recorded position is the
result of the bounded collision search from that cell against the areas
occupied by the notes processed before it. -/
theorem layout_raw_cell_uses_full_index (cfg : LayoutConfig) (notes : List Note)
    (i : Nat) (hi : i < notes.length)
    (hnodup : (notes.map Note.id).Nodup)
    (horigin : (notes.get ⟨i, hi⟩).position = ⟨0, 0⟩) :
    lookupPos (calculateNotePositions notes cfg) (notes.get ⟨i, hi⟩).id =
      some ⟨(findFreePosition cfg
          (calculateNotePositionsGo cfg (notes.take i) 0 [] []).2 50
          (rawX cfg i) (rawY cfg i)).1,
        (findFreePosition cfg
          (calculateNotePositionsGo cfg (notes.take i) 0 [] []).2 50
          (rawX cfg i) (rawY cfg i)).2⟩ := by
  rw [calculateNotePositions,
    lookupPos_calculateNotePositionsGo cfg notes 0 [] [] i hi
      (drop_all_ne_of_nodup notes i hi hnodup)]
  simp only [placeNote, horigin, Nat.zero_add]
  simp

/-- Witness for `layout_raw_cell_uses_full_index`: a single origin note
under the default config is placed at `(50, 50)`. -/
theorem layout_raw_cell_uses_full_index_witness :
    lookupPos (calculateNotePositions [originNoteC8] DEFAULT_CONFIG) "b" =
      some ⟨50, 50⟩ := by
  have h := layout_raw_cell_uses_full_index DEFAULT_CONFIG [originNoteC8] 0
    (by decide) (by decide) rfl
  exact h.trans (by decide)

/-- The rectangle reserved for the raw grid cell of index `j`. -/
def rawRect (cfg : LayoutConfig) (j : Nat) : OccupiedArea :=
  ⟨rawX cfg j, rawY cfg j, cfg.noteWidth, cfg.noteHeight⟩

/-- Distinct grid columns are at least one full column pitch apart. -/
theorem rawX_sep (cfg : LayoutConfig) (hwp : (0:Int) < cfg.noteWidth + cfg.padding)
    (i j : Nat) (h : (i:Int) % maxCols cfg < (j:Int) % maxCols cfg) :
    rawX cfg i + cfg.noteWidth + cfg.padding ≤ rawX cfg j := by
  have hm := mul_le_mul_of_nonneg_right (Int.add_one_le_iff.mpr h) hwp.le
  rw [add_mul, one_mul] at hm
  unfold rawX
  linarith

/-- Distinct grid rows are at least one full row pitch apart. -/
theorem rawY_sep (cfg : LayoutConfig) (hhp : (0:Int) < cfg.noteHeight + cfg.padding)
    (i j : Nat)
    (h : Int.fdiv (i:Int) (maxCols cfg) < Int.fdiv (j:Int) (maxCols cfg)) :
    rawY cfg i + cfg.noteHeight + cfg.padding ≤ rawY cfg j := by
  have hm := mul_le_mul_of_nonneg_right (Int.add_one_le_iff.mpr h) hhp.le
  rw [add_mul, one_mul] at hm
  unfold rawY
  linarith

/-- With positive note dimensions and non-negative padding, the raw grid
cell of index `i` collides with none of the raw cells of other indices. -/
theorem hasCollision_rawRects (cfg : LayoutConfig) (hw : (0:Int) < cfg.noteWidth)
    (hh : (0:Int) < cfg.noteHeight) (hp : (0:Int) ≤ cfg.padding)
    (i : Nat) (js : List Nat) (hne : ∀ j ∈ js, j ≠ i) :
    hasCollision (rawX cfg i) (rawY cfg i) cfg.noteWidth cfg.noteHeight
      (js.map (rawRect cfg)) = false := by
  rw [hasCollision, List.any_eq_false]
  intro area hmem
  obtain ⟨j, hj, rfl⟩ := List.mem_map.mp hmem
  have hji : j ≠ i := hne j hj
  have hwp : (0:Int) < cfg.noteWidth + cfg.padding := by linarith
  have hhp : (0:Int) < cfg.noteHeight + cfg.padding := by linarith
  simp only [rawRect, Bool.and_eq_true, decide_eq_true_eq]
  rintro ⟨⟨⟨h1, h2⟩, h3⟩, h4⟩
  rcases lt_trichotomy ((i:Int) % maxCols cfg) ((j:Int) % maxCols cfg) with hc | hc | hc
  · have hx := rawX_sep cfg hwp i j hc
    linarith
  · have hr : Int.fdiv (i:Int) (maxCols cfg) ≠ Int.fdiv (j:Int) (maxCols cfg) := by
      intro hre
      apply hji
      symm
      have hm0 : (0:Int) < maxCols cfg := lt_of_lt_of_le one_pos (le_max_right _ 1)
      have e1 := Int.ediv_add_emod (i:Int) (maxCols cfg)
      have e2 := Int.ediv_add_emod (j:Int) (maxCols cfg)
      rw [← Int.fdiv_eq_ediv _ hm0.le] at e1 e2
      have : (i:Int) = (j:Int) := by rw [← e1, ← e2, hre, hc]
      exact_mod_cast this
    rcases lt_or_gt_of_ne hr with hrlt | hrgt
    · have hy := rawY_sep cfg hhp i j hrlt
      linarith
    · have hy := rawY_sep cfg hhp j i hrgt
      linarith
  · have hx := rawX_sep cfg hwp j i hc
    linarith

/-- The collision search accepts its starting candidate when that candidate
is already collision-free. -/
theorem findFreePosition_no_collision (cfg : LayoutConfig)
    (occ : List OccupiedArea) (fuel : Nat) (x y : Int)
    (h : hasCollision x y cfg.noteWidth cfg.noteHeight occ = false) :
    findFreePosition cfg occ fuel x y = (x, y) := by
  cases fuel with
  | zero => rfl
  | succ n => simp [findFreePosition, h]

/-- When every note is at the origin (and dimensions are positive, padding
non-negative), the placement loop reserves exactly the raw grid cells, in
index order: no collision ever fires. -/
theorem calculateNotePositionsGo_all_origin (cfg : LayoutConfig)
    (hw : (0:Int) < cfg.noteWidth) (hh : (0:Int) < cfg.noteHeight)
    (hp : (0:Int) ≤ cfg.padding) :
    ∀ (l : List Note) (idx : Nat), (∀ n ∈ l, n.position = ⟨0, 0⟩) →
      (calculateNotePositionsGo cfg l idx []
        ((List.range idx).map (rawRect cfg))).2 =
        (List.range (idx + l.length)).map (rawRect cfg) := by
  intro l
  induction l with
  | nil => intro idx h; simp [calculateNotePositionsGo]
  | cons note rest ih =>
    intro idx h
    rw [calculateNotePositionsGo]
    have hpos : note.position = ⟨0, 0⟩ := h note (List.mem_cons_self note rest)
    have hcol : hasCollision (rawX cfg idx) (rawY cfg idx) cfg.noteWidth
        cfg.noteHeight ((List.range idx).map (rawRect cfg)) = false :=
      hasCollision_rawRects cfg hw hh hp idx (List.range idx)
        fun j hj => Nat.ne_of_lt (List.mem_range.mp hj)
    have hplace : placeNote cfg ((List.range idx).map (rawRect cfg)) idx note =
        ⟨rawX cfg idx, rawY cfg idx⟩ := by
      simp only [placeNote, hpos]
      rw [findFreePosition_no_collision cfg _ 50 _ _ hcol]
      simp
    rw [hplace]
    have hocc : ((List.range idx).map (rawRect cfg)) ++
        [⟨rawX cfg idx, rawY cfg idx, cfg.noteWidth, cfg.noteHeight⟩] =
        (List.range (idx + 1)).map (rawRect cfg) := by
      rw [List.range_succ, List.map_append]
      rfl
    rw [hocc,
      calculateNotePositionsGo_acc cfg rest (idx + 1)
        ([] ++ [(note.id, (⟨rawX cfg idx, rawY cfg idx⟩ : NotePosition))]),
      ih (idx + 1) fun n hn => h n (List.mem_cons_of_mem note hn)]
    have : idx + 1 + rest.length = idx + (note :: rest).length := by
      simp
      omega
    rw [this]

/-- The layout config of the duplicate-position run: one column
(`maxCols = ⌊(51-50)/(91-90)⌋ = 1`), negative padding, eleven grid rows. -/
def cfgC9 : LayoutConfig :=
  { canvasWidth := 51, canvasHeight := 115, noteWidth := 91, noteHeight := 100
    padding := -90, startX := 50, startY := 0 }

/-- First origin note of the duplicate-position run. -/
def layoutNoteA : Note :=
  { id := "la", content := "", position := ⟨0, 0⟩
    textReferences := [], linkedNotes := [] }

/-- Second origin note of the duplicate-position run. -/
def layoutNoteB : Note :=
  { id := "lb", content := "", position := ⟨0, 0⟩
    textReferences := [], linkedNotes := [] }

/-- Third origin note of the duplicate-position run. -/
def layoutNoteC : Note :=
  { id := "lc", content := "", position := ⟨0, 0⟩
    textReferences := [], linkedNotes := [] }

/-- Counterexample to `C9` as stated: under `cfgC9` the note count 3 is
below `columns × ⌊canvasHeight / rowHeight⌋ = 1 × 11` and every note is at
the origin, yet the second and third notes are both placed at `(75, 10)`:
the second exhausts its 50 attempts stepping right one unit per wrap, and
the third, one raw row below, exhausts its 50 attempts on exactly the same
lattice point.  (The claim needs non-negative padding to hold.) -/
theorem layout_duplicate_positions :
    ((3:Int) < maxCols cfgC9 *
      Int.fdiv cfgC9.canvasHeight (cfgC9.noteHeight + cfgC9.padding)) ∧
    lookupPos (calculateNotePositions [layoutNoteA, layoutNoteB, layoutNoteC] cfgC9)
        "lb" = some ⟨75, 10⟩ ∧
    lookupPos (calculateNotePositions [layoutNoteA, layoutNoteB, layoutNoteC] cfgC9)
        "lc" = some ⟨75, 10⟩ := by
  decide

/-- `C9` (amended): with positive note dimensions and non-negative padding,
for origin-positioned notes with pairwise-distinct ids and note count below
`columns × ⌊canvasHeight / rowHeight⌋`, bulk layout assigns pairwise
distinct positions (every note lands on its own raw grid cell). -/
theorem layout_distinct_positions (cfg : LayoutConfig) (notes : List Note)
    (hw : (0:Int) < cfg.noteWidth) (hh : (0:Int) < cfg.noteHeight)
    (hp : (0:Int) ≤ cfg.padding)
    (hnodup : (notes.map Note.id).Nodup)
    (horigin : ∀ n ∈ notes, n.position = ⟨0, 0⟩)
    (hcount : (notes.length : Int) <
      maxCols cfg * Int.fdiv cfg.canvasHeight (cfg.noteHeight + cfg.padding))
    (i j : Nat) (hi : i < notes.length) (hj : j < notes.length) (hij : i ≠ j) :
    lookupPos (calculateNotePositions notes cfg) (notes.get ⟨i, hi⟩).id ≠
      lookupPos (calculateNotePositions notes cfg) (notes.get ⟨j, hj⟩).id := by
  have hplaced : ∀ (k : Nat) (hk : k < notes.length),
      lookupPos (calculateNotePositions notes cfg) (notes.get ⟨k, hk⟩).id =
        some ⟨rawX cfg k, rawY cfg k⟩ := by
    intro k hk
    rw [calculateNotePositions,
      lookupPos_calculateNotePositionsGo cfg notes 0 [] [] k hk
        (drop_all_ne_of_nodup notes k hk hnodup)]
    have hlen : (notes.take k).length = k := by
      rw [List.length_take]
      exact min_eq_left hk.le
    have htake : (calculateNotePositionsGo cfg (notes.take k) 0 [] []).2 =
        (List.range k).map (rawRect cfg) := by
      have hall := calculateNotePositionsGo_all_origin cfg hw hh hp
        (notes.take k) 0 fun n hn => horigin n ((List.take_sublist k notes).subset hn)
      simpa [hlen] using hall
    rw [htake]
    simp only [placeNote, horigin (notes.get ⟨k, hk⟩) (List.get_mem notes k hk),
      Nat.zero_add]
    have hcol : hasCollision (rawX cfg k) (rawY cfg k) cfg.noteWidth
        cfg.noteHeight ((List.range k).map (rawRect cfg)) = false :=
      hasCollision_rawRects cfg hw hh hp k (List.range k)
        fun m hm => Nat.ne_of_lt (List.mem_range.mp hm)
    rw [findFreePosition_no_collision cfg _ 50 _ _ hcol]
    simp
  rw [hplaced i hi, hplaced j hj]
  intro he
  injection he with he
  have hx : rawX cfg i = rawX cfg j := congrArg NotePosition.x he
  have hy : rawY cfg i = rawY cfg j := congrArg NotePosition.y he
  have hcol := hasCollision_rawRects cfg hw hh hp i [j]
    fun m hm => by rw [List.mem_singleton.mp hm]; exact fun hji => hij hji.symm
  rw [hasCollision] at hcol
  simp only [List.map_cons, List.map_nil, List.any_cons, List.any_nil,
    Bool.or_false, rawRect, hx, hy, Bool.and_eq_true, decide_eq_true_eq,
    Bool.not_eq_true] at hcol
  rw [Bool.and_eq_false_iff, Bool.and_eq_false_iff, Bool.and_eq_false_iff] at hcol
  rcases hcol with ((hc | hc) | hc) | hc <;>
    · rw [decide_eq_false_iff_not, not_lt] at hc
      linarith

/-- Witness for `layout_distinct_positions`: two origin notes under the
default config land on distinct grid cells. -/
theorem layout_distinct_positions_witness :
    lookupPos (calculateNotePositions [layoutNoteA, layoutNoteB] DEFAULT_CONFIG)
        "la" ≠
      lookupPos (calculateNotePositions [layoutNoteA, layoutNoteB] DEFAULT_CONFIG)
        "lb" :=
  layout_distinct_positions DEFAULT_CONFIG [layoutNoteA, layoutNoteB]
    (by decide) (by decide) (by decide) (by decide) (by decide) (by decide)
    0 1 (by decide) (by decide) (by decide)


/-- Half-pitch ratio bound: if `|u|·b ≤ |v|·a` then the slope correction
`(b/2)·(u/v)` stays within `a/2`. -/
theorem half_ratio_bound (a b u v : ℚ) (ha : 0 < a) (hb : 0 < b) (hv : v ≠ 0)
    (hab : |u| * b ≤ |v| * a) : |b / 2 * (u / v)| ≤ a / 2 := by
  rw [abs_mul, abs_of_pos (show (0:ℚ) < b / 2 by linarith), abs_div]
  have hvp : 0 < |v| := abs_pos.mpr hv
  have h1 : |u| / |v| ≤ a / b := (div_le_div_iff hvp hb).mpr (by linarith)
  have h2 : b / 2 * (|u| / |v|) ≤ b / 2 * (a / b) :=
    mul_le_mul_of_nonneg_left h1 (by linarith)
  have h3 : b / 2 * (a / b) = a / 2 := by
    field_simp
    ring
  linarith

/-- A point at distance at most half the width from an edge's midpoint stays
between the edge's endpoints. -/
theorem offset_in_range (base width t : ℚ) (hw : 0 < width)
    (ht : |t| ≤ width / 2) :
    base ≤ base + width / 2 + t ∧ base + width / 2 + t ≤ base + width := by
  obtain ⟨h1, h2⟩ := abs_le.mp ht
  constructor <;> linarith

/-- Crossing a slope `e / d`: walking from `s` until the coordinate with
rate `e` has advanced by `e + t` moves the other coordinate by
`d + t·(d / e)`. -/
theorem ray_offset_div (s d e t : ℚ) (hd : d ≠ 0) (he : e ≠ 0) :
    s + (e + t) / (e / d) = s + d + t * (d / e) := by
  field_simp
  ring

/-- Walking from `s` along slope `e / d` for a horizontal advance of
`d + t` moves the other coordinate by `e + t·(e / d)`. -/
theorem ray_offset_mul (s d e t : ℚ) (hd : d ≠ 0) :
    s + (d + t) * (e / d) = s + e + t * (e / d) := by
  field_simp
  ring

/-- `C7`: for every origin and every rectangle of positive width and height,
`getIntersection` returns the centre when the origin coincides with it;
otherwise the returned point lies exactly on the rectangle's boundary — on
the top edge when the vertical ratio dominates and the centre lies below the
origin's level (`Δy > 0` in screen coordinates), on the bottom edge when it
lies above, with the x-coordinate between the rectangle's sides; and
symmetrically on the left or right edge when the vertical ratio does not
dominate. -/
theorem getIntersection_on_boundary (sx sy : ℚ) (r : GRect)
    (hw : 0 < r.width) (hh : 0 < r.height) :
    ((sx = r.x + r.width / 2 ∧ sy = r.y + r.height / 2) →
      getIntersection sx sy r = (r.x + r.width / 2, r.y + r.height / 2)) ∧
    (¬(sx = r.x + r.width / 2 ∧ sy = r.y + r.height / 2) →
      ((|(r.y + r.height / 2 - sy) / r.height| >
          |(r.x + r.width / 2 - sx) / r.width| →
        (sy < r.y + r.height / 2 → (getIntersection sx sy r).2 = r.y) ∧
        (r.y + r.height / 2 < sy →
          (getIntersection sx sy r).2 = r.y + r.height) ∧
        ((getIntersection sx sy r).2 = r.y ∨
          (getIntersection sx sy r).2 = r.y + r.height) ∧
        r.x ≤ (getIntersection sx sy r).1 ∧
        (getIntersection sx sy r).1 ≤ r.x + r.width) ∧
       (¬(|(r.y + r.height / 2 - sy) / r.height| >
           |(r.x + r.width / 2 - sx) / r.width|) →
        (sx < r.x + r.width / 2 → (getIntersection sx sy r).1 = r.x) ∧
        (r.x + r.width / 2 < sx →
          (getIntersection sx sy r).1 = r.x + r.width) ∧
        ((getIntersection sx sy r).1 = r.x ∨
          (getIntersection sx sy r).1 = r.x + r.width) ∧
        r.y ≤ (getIntersection sx sy r).2 ∧
        (getIntersection sx sy r).2 ≤ r.y + r.height))) := by
  obtain ⟨rx, ry, w, h⟩ := r
  simp only at hw hh
  constructor
  · rintro ⟨hx, hy⟩
    simp only [getIntersection]
    rw [if_pos ⟨sub_eq_zero.mpr hx.symm, sub_eq_zero.mpr hy.symm⟩]
  · intro hne
    have hne2 : ¬(rx + w / 2 - sx = 0 ∧ ry + h / 2 - sy = 0) := by
      rintro ⟨h1, h2⟩
      exact hne ⟨(sub_eq_zero.mp h1).symm, (sub_eq_zero.mp h2).symm⟩
    constructor
    · intro habs
      have hdy0 : ry + h / 2 - sy ≠ 0 := by
        intro h0
        rw [show ({ x := rx, y := ry, width := w, height := h } : GRect).y +
          ({ x := rx, y := ry, width := w, height := h } : GRect).height / 2 - sy =
          ry + h / 2 - sy from rfl, h0, zero_div, abs_zero] at habs
        exact absurd habs (not_lt.mpr (abs_nonneg _))
      have habs2 : |rx + w / 2 - sx| * h ≤ |ry + h / 2 - sy| * w := by
        have hcopy : |(ry + h / 2 - sy) / h| > |(rx + w / 2 - sx) / w| := habs
        rw [abs_div, abs_div, abs_of_pos hh, abs_of_pos hw] at hcopy
        exact ((div_lt_div_iff hw hh).mp hcopy).le
      simp only [getIntersection]
      rw [if_neg hne2, if_pos habs]
      rcases hdy0.lt_or_lt with hdyneg | hdypos
      · rw [if_neg (not_lt.mpr hdyneg.le)]
        have hbounds :
            rx ≤ sx + (ry + h - sy) /
                ((ry + h / 2 - sy) / (rx + w / 2 - sx)) ∧
            sx + (ry + h - sy) /
                ((ry + h / 2 - sy) / (rx + w / 2 - sx)) ≤ rx + w := by
          by_cases hdx : rx + w / 2 - sx = 0
          · rw [hdx, div_zero, div_zero, add_zero]
            have hsx : rx + w / 2 = sx := sub_eq_zero.mp hdx
            constructor <;> linarith
          · have hxe : sx + (ry + h - sy) /
                ((ry + h / 2 - sy) / (rx + w / 2 - sx)) =
                rx + w / 2 +
                  h / 2 * ((rx + w / 2 - sx) / (ry + h / 2 - sy)) := by
              rw [show ry + h - sy = (ry + h / 2 - sy) + h / 2 by ring,
                ray_offset_div sx (rx + w / 2 - sx) (ry + h / 2 - sy) (h / 2)
                  hdx hdy0]
              ring
            rw [hxe]
            exact offset_in_range rx w _ hw
              (half_ratio_bound w h (rx + w / 2 - sx) (ry + h / 2 - sy)
                hw hh hdy0 habs2)
        exact ⟨fun hlt => absurd hlt (by linarith), fun _ => rfl, Or.inr rfl,
          hbounds.1, hbounds.2⟩
      · rw [if_pos hdypos]
        have hbounds :
            rx ≤ sx + (ry - sy) / ((ry + h / 2 - sy) / (rx + w / 2 - sx)) ∧
            sx + (ry - sy) / ((ry + h / 2 - sy) / (rx + w / 2 - sx)) ≤
              rx + w := by
          by_cases hdx : rx + w / 2 - sx = 0
          · rw [hdx, div_zero, div_zero, add_zero]
            have hsx : rx + w / 2 = sx := sub_eq_zero.mp hdx
            constructor <;> linarith
          · have hxe : sx + (ry - sy) /
                ((ry + h / 2 - sy) / (rx + w / 2 - sx)) =
                rx + w / 2 +
                  -(h / 2 * ((rx + w / 2 - sx) / (ry + h / 2 - sy))) := by
              rw [show ry - sy = (ry + h / 2 - sy) + -(h / 2) by ring,
                ray_offset_div sx (rx + w / 2 - sx) (ry + h / 2 - sy)
                  (-(h / 2)) hdx hdy0]
              ring
            rw [hxe]
            refine offset_in_range rx w _ hw ?_
            rw [abs_neg]
            exact half_ratio_bound w h (rx + w / 2 - sx) (ry + h / 2 - sy)
              hw hh hdy0 habs2
        exact ⟨fun _ => rfl, fun hgt => absurd hgt (by linarith), Or.inl rfl,
          hbounds.1, hbounds.2⟩
    · intro hnabs
      have hdx0 : rx + w / 2 - sx ≠ 0 := by
        intro h0
        refine hne2 ⟨h0, ?_⟩
        have hle : |(ry + h / 2 - sy) / h| ≤ |(rx + w / 2 - sx) / w| :=
          not_lt.mp hnabs
        rw [h0, zero_div, abs_zero] at hle
        have h1 : |(ry + h / 2 - sy) / h| = 0 := le_antisymm hle (abs_nonneg _)
        rw [abs_eq_zero, div_eq_zero_iff] at h1
        rcases h1 with h1 | h1
        · exact h1
        · exact absurd h1 hh.ne'
      have habs2 : |ry + h / 2 - sy| * w ≤ |rx + w / 2 - sx| * h := by
        have hle : |(ry + h / 2 - sy) / h| ≤ |(rx + w / 2 - sx) / w| :=
          not_lt.mp hnabs
        rw [abs_div, abs_div, abs_of_pos hh, abs_of_pos hw] at hle
        exact (div_le_div_iff hh hw).mp hle
      simp only [getIntersection]
      rw [if_neg hne2, if_neg hnabs]
      rcases hdx0.lt_or_lt with hdxneg | hdxpos
      · rw [if_neg (not_lt.mpr hdxneg.le)]
        have hbounds :
            ry ≤ sy + (rx + w - sx) *
                ((ry + h / 2 - sy) / (rx + w / 2 - sx)) ∧
            sy + (rx + w - sx) *
                ((ry + h / 2 - sy) / (rx + w / 2 - sx)) ≤ ry + h := by
          have hye : sy + (rx + w - sx) *
              ((ry + h / 2 - sy) / (rx + w / 2 - sx)) =
              ry + h / 2 +
                w / 2 * ((ry + h / 2 - sy) / (rx + w / 2 - sx)) := by
            rw [show rx + w - sx = (rx + w / 2 - sx) + w / 2 by ring,
              ray_offset_mul sy (rx + w / 2 - sx) (ry + h / 2 - sy) (w / 2)
                hdx0]
            ring
          rw [hye]
          exact offset_in_range ry h _ hh
            (half_ratio_bound h w (ry + h / 2 - sy) (rx + w / 2 - sx)
              hh hw hdx0 habs2)
        exact ⟨fun hlt => absurd hlt (by linarith), fun _ => rfl, Or.inr rfl,
          hbounds.1, hbounds.2⟩
      · rw [if_pos hdxpos]
        have hbounds :
            ry ≤ sy + (rx - sx) * ((ry + h / 2 - sy) / (rx + w / 2 - sx)) ∧
            sy + (rx - sx) * ((ry + h / 2 - sy) / (rx + w / 2 - sx)) ≤
              ry + h := by
          have hye : sy + (rx - sx) *
              ((ry + h / 2 - sy) / (rx + w / 2 - sx)) =
              ry + h / 2 +
                -(w / 2 * ((ry + h / 2 - sy) / (rx + w / 2 - sx))) := by
            rw [show rx - sx = (rx + w / 2 - sx) + -(w / 2) by ring,
              ray_offset_mul sy (rx + w / 2 - sx) (ry + h / 2 - sy)
                (-(w / 2)) hdx0]
            ring
          rw [hye]
          refine offset_in_range ry h _ hh ?_
          rw [abs_neg]
          exact half_ratio_bound h w (ry + h / 2 - sy) (rx + w / 2 - sx)
            hh hw hdx0 habs2
        exact ⟨fun _ => rfl, fun hgt => absurd hgt (by linarith), Or.inl rfl,
          hbounds.1, hbounds.2⟩

/-- Witness for `getIntersection_on_boundary`: the degenerate case on the
rectangle at `(1, 1)` of size `2 × 2` with the origin at its centre. -/
theorem getIntersection_on_boundary_witness :
    getIntersection 2 2 ⟨1, 1, 2, 2⟩ = (2, 2) := by
  have h := (getIntersection_on_boundary 2 2 ⟨1, 1, 2, 2⟩
    (by norm_num) (by norm_num)).1 ⟨by norm_num, by norm_num⟩
  norm_num at h
  exact h
